import Mathlib

set_option maxRecDepth 100000

/-!
Verification development for the TNV (Total Nuclear Variation) CPU regulariser
(`src/Core/regularisers_CPU/TNV_core.c`), a primal-dual hybrid gradient (PDHG)
solver with domain decomposition along the row axis.

The C code computes with single-precision floats; the shallow embedding below
uses exact rational arithmetic (`ℚ`).  The C library function `sqrtf` is
modelled by an explicit function parameter `rsqrt : ℚ → ℚ`; theorems that need
properties of the square root state them as hypotheses (all of which hold for
the real square root), and concrete evaluations instantiate `rsqrt` with a
function that is exact on the (perfect-square) arguments actually encountered.
Rational division is total with `x / 0 = 0`; every place where the embedded
code divides is either guarded in the source (`sig > fTiny`) or the behaviour
at a zero denominator is irrelevant to the stated theorems.
-/

namespace TNV

/-- Modelled from the spec: `fTiny` is defined in the missing header
`TNV_core.h`; the spec only says singular values "below a small epsilon" are
treated as zero.  We fix a concrete small positive rational. -/
def fTiny : ℚ := 1 / 10000000000

/-- Modelled from the spec: `fLarge` is defined in the missing header
`TNV_core.h`; it is used as an initial residual and as the initial `sum` that
forces the water-filling loop to execute at least once, so all that matters is
that it is large (in particular greater than `1`). -/
def fLarge : ℚ := 1000000000000

/-- Modelled from the spec: `INFNORM` is defined in the missing header
`TNV_core.h`.  The spec describes the `p == INFNORM` shrinkage rule as an
alternative to the `p == 1` rule, so its only relevant property is that it
differs from `1`. -/
def INFNORM : ℤ := 0

/-- One clipping step of the water-filling projection:
`proj[ii] = MAX(proj[ii] - shrinkfactor, 0.0f)` (TNV_core.c line 108). -/
def wfClip (p shrink : ℚ) : ℚ := max (p - shrink) 0

/-- The count `num` of nonzero projected entries (TNV_core.c lines 111-112),
returned as a rational because the C code divides by it. -/
def wfNum (p0 p1 : ℚ) : ℚ :=
  (if p0 = 0 then 0 else 1) + (if p1 = 0 then 0 else 1)

/-- The water-filling `while(sum > 1.0f)` loop of `coefF`
(TNV_core.c lines 98-119), with the two-element `proj` array unrolled.
The loop body clips both entries by the current `shrinkfactor`, recomputes
`sum` and `num`, and either exits (when `num = 0`, the C `break`, or when
`sum ≤ 1`, the loop condition) or repeats with
`shrinkfactor = (sum - 1) / num`.  The C entry condition `sum = fLarge > 1`
makes the body run at least once, which is modelled by calling `wfGo`
directly with the initial `shrinkfactor = 0`.  The loop is modelled with
explicit fuel; `wf_terminates` below proves that fuel `4` always suffices. -/
def wfGo : ℕ → ℚ → ℚ → ℚ → Option (ℚ × ℚ)
  | 0, _, _, _ => none
  | (f+1), p0, p1, shrink =>
      if 0 < wfNum (wfClip p0 shrink) (wfClip p1 shrink) then
        if 1 < |wfClip p0 shrink| + |wfClip p1 shrink| then
          wfGo f (wfClip p0 shrink) (wfClip p1 shrink)
            ((|wfClip p0 shrink| + |wfClip p1 shrink| - 1) /
              wfNum (wfClip p0 shrink) (wfClip p1 shrink))
        else some (wfClip p0 shrink, wfClip p1 shrink)
      else some (wfClip p0 shrink, wfClip p1 shrink)

/-- Fuel for `wfGo`; `wf_terminates` proves it suffices. -/
def wfFuel : ℕ := 4

/-- Eigenvalues `(eig1, eig2)` of the 2×2 Gram matrix, computed inside `coefF`
(TNV_core.c lines 38-42): trace/determinant closed form, clamped to be
non-negative. -/
def coefEigs (rsqrt : ℚ → ℚ) (M1 M2 M3 : ℚ) : ℚ × ℚ :=
  (max ((M1 + M3) / 2 + rsqrt (max ((M1 + M3) * (M1 + M3) / 4 - (M1 * M3 - M2 * M2)) 0)) 0,
   max ((M1 + M3) / 2 - rsqrt (max ((M1 + M3) * (M1 + M3) / 4 - (M1 * M3 - M2 * M2)) 0)) 0)

/-- Singular values `(sig1, sig2)`, square roots of the clamped eigenvalues
(TNV_core.c lines 43-44). -/
def coefSigs (rsqrt : ℚ → ℚ) (M1 M2 M3 : ℚ) : ℚ × ℚ :=
  (rsqrt (coefEigs rsqrt M1 M2 M3).1, rsqrt (coefEigs rsqrt M1 M2 M3).2)

/-- Normalised eigenvectors `(V1, V2, V3, V4)` (TNV_core.c lines 47-82).
When `M2 = 0` the axis-aligned choice compares the diagonal entries. -/
def coefVs (rsqrt : ℚ → ℚ) (M1 M2 M3 : ℚ) : ℚ × ℚ × ℚ × ℚ :=
  if M2 ≠ 0 then
    (if fTiny < rsqrt (M2 * M2 + ((coefEigs rsqrt M1 M2 M3).1 - M3) * ((coefEigs rsqrt M1 M2 M3).1 - M3)) then
        ((coefEigs rsqrt M1 M2 M3).1 - M3) / rsqrt (M2 * M2 + ((coefEigs rsqrt M1 M2 M3).1 - M3) * ((coefEigs rsqrt M1 M2 M3).1 - M3))
      else 0,
     if fTiny < rsqrt (M2 * M2 + ((coefEigs rsqrt M1 M2 M3).2 - M3) * ((coefEigs rsqrt M1 M2 M3).2 - M3)) then
        ((coefEigs rsqrt M1 M2 M3).2 - M3) / rsqrt (M2 * M2 + ((coefEigs rsqrt M1 M2 M3).2 - M3) * ((coefEigs rsqrt M1 M2 M3).2 - M3))
      else 0,
     if fTiny < rsqrt (M2 * M2 + ((coefEigs rsqrt M1 M2 M3).1 - M3) * ((coefEigs rsqrt M1 M2 M3).1 - M3)) then
        M2 / rsqrt (M2 * M2 + ((coefEigs rsqrt M1 M2 M3).1 - M3) * ((coefEigs rsqrt M1 M2 M3).1 - M3))
      else 0,
     if fTiny < rsqrt (M2 * M2 + ((coefEigs rsqrt M1 M2 M3).2 - M3) * ((coefEigs rsqrt M1 M2 M3).2 - M3)) then
        M2 / rsqrt (M2 * M2 + ((coefEigs rsqrt M1 M2 M3).2 - M3) * ((coefEigs rsqrt M1 M2 M3).2 - M3))
      else 0)
  else if M3 < M1 then (1, 0, 0, 1)
  else (0, 1, 1, 0)

/-- The shrinkage applied to the singular values (TNV_core.c lines 85-124):
soft threshold for `p = 1`, water-filling projection of
`(sigma*|sig1|, sigma*|sig2|)` onto the L1 ball for `p = INFNORM`, and `(0,0)`
otherwise (the C initialisation `sig1_upd = sig2_upd = 0.0f`).  On fuel
exhaustion of the modelled loop (which `wf_terminates` shows never happens)
the projection defaults to `(0, 0)`. -/
def coefUpd (sig1 sig2 sigma : ℚ) (p : ℤ) : ℚ × ℚ :=
  if p = 1 then (max (sig1 - 1 / sigma) 0, max (sig2 - 1 / sigma) 0)
  else if p = INFNORM then
    (sig1 - (1 / sigma) * ((wfGo wfFuel (sigma * |sig1|) (sigma * |sig2|) 0).getD (0, 0)).1,
     sig2 - (1 / sigma) * ((wfGo wfFuel (sigma * |sig1|) (sigma * |sig2|) 0).getD (0, 0)).2)
  else (0, 0)

/-- The proximal operator `coefF` (TNV_core.c lines 30-137): returns the
symmetric 2×2 map `(t0, t1, t2)`.  The parameters `q` and `r` are accepted and
ignored exactly as in the C source.  Each shrunk singular value is divided by
the original when the latter exceeds `fTiny` (lines 127-131), then the matrix
is reconstructed from the eigenvectors (lines 134-136). -/
def coefF (rsqrt : ℚ → ℚ) (M1 M2 M3 sigma : ℚ) (p _q _r : ℤ) : ℚ × ℚ × ℚ :=
  ((if fTiny < (coefSigs rsqrt M1 M2 M3).1 then
      (coefUpd (coefSigs rsqrt M1 M2 M3).1 (coefSigs rsqrt M1 M2 M3).2 sigma p).1 / (coefSigs rsqrt M1 M2 M3).1
    else (coefUpd (coefSigs rsqrt M1 M2 M3).1 (coefSigs rsqrt M1 M2 M3).2 sigma p).1) *
     (coefVs rsqrt M1 M2 M3).1 * (coefVs rsqrt M1 M2 M3).1 +
   (if fTiny < (coefSigs rsqrt M1 M2 M3).2 then
      (coefUpd (coefSigs rsqrt M1 M2 M3).1 (coefSigs rsqrt M1 M2 M3).2 sigma p).2 / (coefSigs rsqrt M1 M2 M3).2
    else (coefUpd (coefSigs rsqrt M1 M2 M3).1 (coefSigs rsqrt M1 M2 M3).2 sigma p).2) *
     (coefVs rsqrt M1 M2 M3).2.1 * (coefVs rsqrt M1 M2 M3).2.1,
   (if fTiny < (coefSigs rsqrt M1 M2 M3).1 then
      (coefUpd (coefSigs rsqrt M1 M2 M3).1 (coefSigs rsqrt M1 M2 M3).2 sigma p).1 / (coefSigs rsqrt M1 M2 M3).1
    else (coefUpd (coefSigs rsqrt M1 M2 M3).1 (coefSigs rsqrt M1 M2 M3).2 sigma p).1) *
     (coefVs rsqrt M1 M2 M3).1 * (coefVs rsqrt M1 M2 M3).2.2.1 +
   (if fTiny < (coefSigs rsqrt M1 M2 M3).2 then
      (coefUpd (coefSigs rsqrt M1 M2 M3).1 (coefSigs rsqrt M1 M2 M3).2 sigma p).2 / (coefSigs rsqrt M1 M2 M3).2
    else (coefUpd (coefSigs rsqrt M1 M2 M3).1 (coefSigs rsqrt M1 M2 M3).2 sigma p).2) *
     (coefVs rsqrt M1 M2 M3).2.1 * (coefVs rsqrt M1 M2 M3).2.2.2,
   (if fTiny < (coefSigs rsqrt M1 M2 M3).1 then
      (coefUpd (coefSigs rsqrt M1 M2 M3).1 (coefSigs rsqrt M1 M2 M3).2 sigma p).1 / (coefSigs rsqrt M1 M2 M3).1
    else (coefUpd (coefSigs rsqrt M1 M2 M3).1 (coefSigs rsqrt M1 M2 M3).2 sigma p).1) *
     (coefVs rsqrt M1 M2 M3).2.2.1 * (coefVs rsqrt M1 M2 M3).2.2.1 +
   (if fTiny < (coefSigs rsqrt M1 M2 M3).2 then
      (coefUpd (coefSigs rsqrt M1 M2 M3).1 (coefSigs rsqrt M1 M2 M3).2 sigma p).2 / (coefSigs rsqrt M1 M2 M3).2
    else (coefUpd (coefSigs rsqrt M1 M2 M3).1 (coefSigs rsqrt M1 M2 M3).2 sigma p).2) *
     (coefVs rsqrt M1 M2 M3).2.2.2 * (coefVs rsqrt M1 M2 M3).2.2.2)

/-- Integer square root by linear search (structural recursion only, so that
concrete evaluations reduce inside the kernel); exact for every `n`. -/
def natSqrtLin (n : ℕ) : ℕ :=
  (List.range (n + 1)).foldl (fun a k => if k * k ≤ n then k else a) 0

/-- A computable square root on `ℚ` that is exact on perfect squares of
rationals (and returns `0` elsewhere); used only to instantiate the `rsqrt`
parameter in concrete evaluations. -/
def ratSqrt (q : ℚ) : ℚ :=
  if 0 ≤ q ∧ (natSqrtLin q.num.toNat) * (natSqrtLin q.num.toNat) = q.num.toNat ∧
      (natSqrtLin q.den) * (natSqrtLin q.den) = q.den then
    (natSqrtLin q.num.toNat : ℚ) / (natSqrtLin q.den : ℚ)
  else 0

/-- The `p`, `q`, `r` arguments that `tnv_step` passes to `coefF`
(TNV_core.c lines 328-330 and 399). -/
def stepP : ℤ := 1

/-- The `q` argument of the `coefF` call in `tnv_step` (TNV_core.c line 329). -/
def stepQ : ℤ := 1

/-- The `r` argument of the `coefF` call in `tnv_step` (TNV_core.c line 330). -/
def stepR : ℤ := 0

/-- Instrumentation record for one (row, column, channel) cell of a partition:
`v` is the unguarded primal-residual contribution
`|udiff / tau + divdiff|` computed for that cell in `tnv_step`
(TNV_core.c line 427 before the `(offY == 0)||(j > 0)` guard is applied). -/
structure PCell where
  j : ℕ
  i : ℕ
  k : ℕ
  v : ℚ
  deriving Repr, DecidableEq

/-- The per-partition buffer set `tnv_thread_t` (TNV_core.c lines 141-147).
Buffers are modelled as total functions from the flat C index to `ℚ`; freshly
allocated (`malloc`) memory is modelled as zero, which is sound for every
stated theorem because the C code never lets uninitialised cells flow into an
observable value (the only uninitialised region is the halo row of the last
partition's `u`/`div` allocations, whose derived values are overwritten or
never read back).  The extra field `pcells` is proof instrumentation (it
records each cell's unguarded primal-residual contribution) and is written
alongside `resprimal` in the embedding of `tnv_step`. -/
structure TnvThread where
  offY : ℕ
  stepY : ℕ
  copY : ℕ
  Input : ℕ → ℚ
  u : ℕ → ℚ
  qx : ℕ → ℚ
  qy : ℕ → ℚ
  gradx : ℕ → ℚ
  grady : ℕ → ℚ
  div : ℕ → ℚ
  div0 : ℕ → ℚ
  udiff0 : ℕ → ℚ
  udiff : ℕ → ℚ
  resprimal : ℚ
  resdual : ℚ
  unorm : ℚ
  qnorm : ℚ
  product : ℚ
  pcells : List PCell

/-- The global context `tnv_context_t` (TNV_core.c lines 149-155), with the
per-thread array `thr_ctx` and the two volume pointers. -/
structure TnvCtx where
  threads : ℕ
  thr : List TnvThread
  InputT : ℕ → ℚ
  uT : ℕ → ℚ
  dimX : ℕ
  dimY : ℕ
  dimZ : ℕ
  padZ : ℕ
  lambda : ℚ
  sigma : ℚ
  tau : ℚ
  theta : ℚ

/-- The process-wide globals: the scheduler singleton `sched` (modelled as a
Boolean presence flag, TNV_core.c line 157) and the context `tnv_ctx`
(line 158). -/
structure TnvGlobal where
  sched : Bool
  ctx : TnvCtx

/-- Pointwise store into a flat buffer. -/
def updAt (f : ℕ → ℚ) (l : ℕ) (v : ℚ) : ℕ → ℚ :=
  fun l' => if l' = l then v else f l'

/-- `memset(buf, 0, n * sizeof(float))`: zero the first `n` cells. -/
def memset0 (f : ℕ → ℚ) (n : ℕ) : ℕ → ℚ :=
  fun l => if l < n then 0 else f l

/-- A thread record with all-zero buffers and statistics, as produced by the
model of `tnv_init` (TNV_core.c lines 181-217) for a partition
`(offY, stepY, copY)`. -/
def mkThread (offY stepY copY : ℕ) : TnvThread :=
  { offY := offY, stepY := stepY, copY := copY,
    Input := fun _ => 0, u := fun _ => 0, qx := fun _ => 0, qy := fun _ => 0,
    gradx := fun _ => 0, grady := fun _ => 0, div := fun _ => 0,
    div0 := fun _ => 0, udiff0 := fun _ => 0, udiff := fun _ => 0,
    resprimal := 0, resdual := 0, unorm := 0, qnorm := 0, product := 0,
    pcells := [] }

/-- Default thread used for safe list indexing. -/
def dummyThread : TnvThread := mkThread 0 0 0

/-- The ingest phase `tnv_start` (TNV_core.c lines 219-254): zero `u`, `qx`,
`qy`, `gradx`, `grady`, `div`, then copy the partition's row band (including
the halo row, `copY` rows) of the global noisy volume `InputT` and estimate
volume `uT` into the local `Input` and `u` buffers. -/
def tnv_start (c : TnvCtx) (t : TnvThread) : TnvThread :=
  let DimTotal := c.dimX * t.stepY * c.padZ
  let Dim1Total := c.dimX * t.copY * c.padZ
  let t1 : TnvThread :=
    { t with u := memset0 t.u Dim1Total, qx := memset0 t.qx DimTotal,
             qy := memset0 t.qy DimTotal, gradx := memset0 t.gradx DimTotal,
             grady := memset0 t.grady DimTotal, div := memset0 t.div Dim1Total }
  (List.range c.dimZ).foldl (fun tk k =>
    (List.range t.copY).foldl (fun tj j =>
      (List.range c.dimX).foldl (fun ti i =>
        let ti1 : TnvThread := { ti with
          Input := updAt ti.Input (j * c.dimX * c.padZ + i * c.padZ + k)
            (c.InputT (k * c.dimX * c.dimY + (j + ti.offY) * c.dimX + i)) }
        { ti1 with
          u := updAt ti1.u (j * c.dimX * c.padZ + i * c.padZ + k)
            (c.uT (k * c.dimX * c.dimY + (j + ti1.offY) * c.dimX + i)) }) tj) tk) t1

/-- The writeback phase `tnv_finish` (TNV_core.c lines 256-278): copy the
interior `stepY` rows of the local `u` back into the global `uT`. -/
def tnv_finish (c : TnvCtx) (uT : ℕ → ℚ) (t : TnvThread) : ℕ → ℚ :=
  (List.range c.dimZ).foldl (fun fk k =>
    (List.range t.stepY).foldl (fun fj j =>
      (List.range c.dimX).foldl (fun fi i =>
        updAt fi (k * c.dimX * c.dimY + (j + t.offY) * c.dimX + i)
          (t.u (j * c.dimX * c.padZ + i * c.padZ + k))) fj) fk) uT

/-- The rollback phase `tnv_restore` (TNV_core.c lines 281-303): zero `u`,
`qx`, `qy`, `gradx`, `grady`, `div` (and nothing else — in particular the
local `u` is not re-copied from the global estimate volume). -/
def tnv_restore (c : TnvCtx) (t : TnvThread) : TnvThread :=
  { t with u := memset0 t.u (c.dimX * t.copY * c.padZ),
           qx := memset0 t.qx (c.dimX * t.stepY * c.padZ),
           qy := memset0 t.qy (c.dimX * t.stepY * c.padZ),
           gradx := memset0 t.gradx (c.dimX * t.stepY * c.padZ),
           grady := memset0 t.grady (c.dimX * t.stepY * c.padZ),
           div := memset0 t.div (c.dimX * t.copY * c.padZ) }

/-- Per-pixel scratch state of `tnv_step`: the channel-indexed local arrays
`gradxdiff`, `gradydiff`, `ubarx`, `ubary`, `udiff_next`
(TNV_core.c lines 352-356) and the Gram accumulators `M1`, `M2`, `M3`. -/
structure StepScratch where
  gradxdiff : ℕ → ℚ
  gradydiff : ℕ → ℚ
  ubarx : ℕ → ℚ
  ubary : ℕ → ℚ
  udiff_next : ℕ → ℚ
  M1 : ℚ
  M2 : ℚ
  M3 : ℚ

/-- The row-0 prologue of `tnv_step` (TNV_core.c lines 358-368): closed-form
primal update of row 0 of `u` and capture of the `udiff`, `udiff0`, `div0`
row snapshots. -/
def stepProlog (c : TnvCtx) (t : TnvThread) : TnvThread :=
  (List.range c.dimX).foldl (fun ti i =>
    (List.range c.dimZ).foldl (fun tk k =>
      let l := i * c.padZ + k
      let u_upd := (tk.u l + c.tau * tk.div l + c.tau * c.lambda * tk.Input l) /
        (1 + c.tau * c.lambda)
      let udiffv := tk.u l - u_upd
      let tk1 : TnvThread := { tk with udiff := updAt tk.udiff l udiffv,
                                       udiff0 := updAt tk.udiff0 l udiffv,
                                       div0 := updAt tk.div0 l (tk.div l) }
      { tk1 with u := updAt tk1.u l u_upd }) ti) t

/-- First per-channel pass of one pixel of `tnv_step`
(TNV_core.c lines 378-397): primal update of the next row of `u`,
forward-difference gradients (zero at the rightmost column and at the last
local row), cached-gradient differences, over-relaxed extrapolation
`ubar`, and accumulation of the Gram matrix `(M1, M2, M3)`. -/
def stepPhaseA (c : TnvCtx) (j i : ℕ) (t : TnvThread) : TnvThread × StepScratch :=
  (List.range c.dimZ).foldl (fun (st : TnvThread × StepScratch) k =>
    let t := st.1
    let sc := st.2
    let l := (j * c.dimX + i) * c.padZ
    let m := c.dimX * c.padZ
    let u_upd := (t.u (l + k + m) + c.tau * t.div (l + k + m) +
      c.tau * c.lambda * t.Input (l + k + m)) / (1 + c.tau * c.lambda)
    let sc1 : StepScratch :=
      { sc with udiff_next := updAt sc.udiff_next k (t.u (l + k + m) - u_upd) }
    let t1 : TnvThread := { t with u := updAt t.u (l + k + m) u_upd }
    let gradx_upd := if i = c.dimX - 1 then 0 else t1.u (l + k + c.padZ) - t1.u (l + k)
    let grady_upd := if j = t1.copY - 1 then 0 else t1.u (l + k + m) - t1.u (l + k)
    let sc2 : StepScratch :=
      { sc1 with gradxdiff := updAt sc1.gradxdiff k (t1.gradx (l + k) - gradx_upd),
                 gradydiff := updAt sc1.gradydiff k (t1.grady (l + k) - grady_upd) }
    let t2 : TnvThread := { t1 with gradx := updAt t1.gradx (l + k) gradx_upd,
                                    grady := updAt t1.grady (l + k) grady_upd }
    let sc3 : StepScratch :=
      { sc2 with ubarx := updAt sc2.ubarx k (gradx_upd - c.theta * sc2.gradxdiff k),
                 ubary := updAt sc2.ubary k (grady_upd - c.theta * sc2.gradydiff k) }
    let vx := sc3.ubarx k + (1 / c.sigma) * t2.qx (l + k)
    let vy := sc3.ubary k + (1 / c.sigma) * t2.qy (l + k)
    (t2, { sc3 with M1 := sc3.M1 + vx * vx, M2 := sc3.M2 + vx * vy,
                    M3 := sc3.M3 + vy * vy }))
    (t, { gradxdiff := fun _ => 0, gradydiff := fun _ => 0, ubarx := fun _ => 0,
          ubary := fun _ => 0, udiff_next := fun _ => 0, M1 := 0, M2 := 0, M3 := 0 })

/-- Second per-channel pass of one pixel of `tnv_step`
(TNV_core.c lines 399-431): one `coefF` call shared by all channels, dual
update `qx`, `qy`, divergence recomputation with one-sided differences, and
accumulation of the four residual statistics.  The `resprimal` contribution is
guarded by `(offY == 0) || (j > 0)` (line 427); the unguarded value is also
recorded in the `pcells` instrumentation list. -/
def stepPhaseB (rsqrt : ℚ → ℚ) (c : TnvCtx) (j i : ℕ) (st : TnvThread × StepScratch) :
    TnvThread :=
  let sc := st.2
  let tv := coefF rsqrt sc.M1 sc.M2 sc.M3 c.sigma stepP stepQ stepR
  (List.range c.dimZ).foldl (fun t k =>
    let l := (j * c.dimX + i) * c.padZ
    let m := c.dimX * c.padZ
    let vx := sc.ubarx k + (1 / c.sigma) * t.qx (l + k)
    let vy := sc.ubary k + (1 / c.sigma) * t.qy (l + k)
    let gx_upd := vx * tv.1 + vy * tv.2.1
    let gy_upd := vx * tv.2.1 + vy * tv.2.2
    let qxdiff := c.sigma * (sc.ubarx k - gx_upd)
    let qydiff := c.sigma * (sc.ubary k - gy_upd)
    let t1 : TnvThread := { t with qx := updAt t.qx (l + k) (t.qx (l + k) + qxdiff),
                                   qy := updAt t.qy (l + k) (t.qy (l + k) + qydiff) }
    let udiffv := t1.udiff (i * c.padZ + k)
    let t2 : TnvThread := { t1 with udiff := updAt t1.udiff (i * c.padZ + k) (sc.udiff_next k),
                                    unorm := t1.unorm + udiffv * udiffv,
                                    qnorm := t1.qnorm + (qxdiff * qxdiff + qydiff * qydiff) }
    let div_upd := (if 0 < i then -(t2.qx (l + k - c.padZ)) else 0) +
                   (if 0 < j then -(t2.qy (l + k - m)) else 0) +
                   (if i < c.dimX - 1 then t2.qx (l + k) else 0) +
                   (if j < t2.copY - 1 then t2.qy (l + k) else 0)
    let divdiffv := t2.div (l + k) - div_upd
    let t3 : TnvThread := { t2 with div := updAt t2.div (l + k) div_upd }
    let v := |(1 / c.tau) * udiffv + divdiffv|
    { t3 with resprimal := t3.resprimal + (if t3.offY = 0 ∨ 0 < j then v else 0),
              resdual := t3.resdual + |(1 / c.sigma) * qxdiff + sc.gradxdiff k| +
                |(1 / c.sigma) * qydiff + sc.gradydiff k|,
              product := t3.product - (sc.gradxdiff k * qxdiff + sc.gradydiff k * qydiff),
              pcells := t3.pcells ++ [⟨j, i, k, v⟩] }) st.1

/-- The iteration body `tnv_step` (TNV_core.c lines 306-444): reset the five
statistics (local accumulators initialised to zero, stored back at lines
437-441), run the row-0 prologue, then sweep rows and columns applying the
two per-pixel passes. -/
def tnv_step (rsqrt : ℚ → ℚ) (c : TnvCtx) (t : TnvThread) : TnvThread :=
  let t0 : TnvThread := { t with resprimal := 0, resdual := 0, unorm := 0,
                                 qnorm := 0, product := 0, pcells := [] }
  let t1 := stepProlog c t0
  (List.range t.stepY).foldl (fun tj j =>
    (List.range c.dimX).foldl (fun ti i =>
      stepPhaseB rsqrt c j i (stepPhaseA c j i ti)) tj) t1

/-- One cell of the boundary-reconciliation pass
(TNV_core.c lines 568-580): corrects partition `j`'s divergence at its first
row by the neighbour's vertical dual, writes the corrected value into the
neighbour's halo slot, and accumulates the corrected primal-residual
contribution from the pre-step snapshots. -/
def borderCell (c : TnvCtx) (m : ℕ) (st : TnvThread × TnvThread × ℚ) (_i _k l : ℕ) :
    TnvThread × TnvThread × ℚ :=
  let c0 := st.1
  let cj := st.2.1
  let acc := st.2.2
  let divdiff0 := cj.div0 l - cj.div l
  let udiffv := cj.udiff0 l
  let cj1 : TnvThread := { cj with div := updAt cj.div l (cj.div l - c0.qy (l + m)) }
  let c01 : TnvThread :=
    { c0 with div := updAt c0.div (m + l + c.dimX * c.padZ) (cj1.div l) }
  let divdiffv := divdiff0 + c01.qy (l + m)
  (c01, cj1, acc + |(1 / c.tau) * udiffv + divdiffv|)

/-- The HaloReconciler (TNV_core.c lines 563-582): sequential pass over
adjacent partition pairs, returning the corrected thread list and the border
primal-residual correction. -/
def borderPass (c : TnvCtx) (thr : List TnvThread) : List TnvThread × ℚ :=
  (List.range thr.length).foldl (fun (st : List TnvThread × ℚ) j =>
    if j = 0 then st
    else
      let ts := st.1
      let ctx0 := ts.getD (j - 1) dummyThread
      let ctxj := ts.getD j dummyThread
      let m := (ctx0.stepY - 1) * c.dimX * c.padZ
      let r := (List.range c.dimX).foldl (fun sti i =>
          (List.range c.dimZ).foldl (fun stk k =>
            borderCell c m stk i k (i * c.padZ + k)) sti)
        (ctx0, ctxj, st.2)
      ((ts.set (j - 1) r.1).set j r.2.1, r.2.2)) (thr, 0)

/-- Backtracking parameter `gamma = 0.75f` (TNV_core.c line 523). -/
def gamma : ℚ := 3 / 4

/-- Backtracking parameter `beta = 0.95f` (TNV_core.c line 524). -/
def beta : ℚ := 19 / 20

/-- Backtracking parameter `alpha0 = 0.2f` (TNV_core.c line 525). -/
def alpha0 : ℚ := 1 / 5

/-- Backtracking parameter `delta = 1.5f` (TNV_core.c line 527). -/
def delta : ℚ := 3 / 2

/-- Backtracking parameter `eta = 0.95f` (TNV_core.c line 528). -/
def eta : ℚ := 19 / 20

/-- Backtracking parameter `s = 1.0f` (TNV_core.c line 522; never
reassigned). -/
def sParam : ℚ := 1

/-- The per-solve mutable state of the `TNV_CPU_main` loop: the global
context plus the loop-local `tau`, `sigma`, `theta`, `alpha`, `started`,
`residual`.  `restoreCount` is proof instrumentation counting how many times
the `tnv_restore` phase has been dispatched. -/
structure LoopState where
  ctx : TnvCtx
  tau : ℚ
  sigma : ℚ
  theta : ℚ
  alpha : ℚ
  started : Bool
  residual : ℚ
  restoreCount : ℕ

/-- The quantities computed by one iteration of the main loop before the
step-size controller acts (TNV_core.c lines 546-597): post-step thread
states after boundary reconciliation, the five aggregated statistics, the
balance ratio `b` and the normalised residual.  Rational division is total
with denominator `0` giving `0`; in the float code a zero denominator gives
`NaN`/`inf`, for which every comparison `b > 1` is false exactly as for the
modelled value `0` (a `NaN` compares false, an `inf` would compare true only
when the numerator is nonzero with zero denominator, which requires
`product ≠ 0` with `unorm = qnorm = 0`, impossible since `product` is built
from the same differences as `qnorm`). -/
def iterCompute (rsqrt : ℚ → ℚ) (s : LoopState) : List TnvThread × ℚ × ℚ × ℚ × ℚ × ℚ × ℚ × ℚ :=
  let c := { s.ctx with sigma := s.sigma, tau := s.tau, theta := s.theta }
  let thr1 := c.thr.map (tnv_step rsqrt c)
  let bp := borderPass c thr1
  let resprimal := bp.2 + bp.1.foldl (fun a t => a + t.resprimal) 0
  let resdual := bp.1.foldl (fun a t => a + t.resdual) 0
  let product := bp.1.foldl (fun a t => a + t.product) 0
  let unorm := bp.1.foldl (fun a t => a + t.unorm) 0
  let qnorm := bp.1.foldl (fun a t => a + t.qnorm) 0
  (bp.1, resprimal, resdual, product, unorm, qnorm,
   2 * s.tau * s.sigma * product / (gamma * s.sigma * unorm + gamma * s.tau * qnorm),
   (resprimal + resdual) / ((c.dimX * c.dimY * c.dimZ : ℕ) : ℚ))

/-- The balance ratio `b` of one iteration (TNV_core.c line 594). -/
def iterB (rsqrt : ℚ → ℚ) (s : LoopState) : ℚ :=
  (iterCompute rsqrt s).2.2.2.2.2.2.1

/-- One full iteration of the `TNV_CPU_main` loop (TNV_core.c lines 545-627):
broadcast `(tau, sigma, theta)`, dispatch `tnv_step` to all partitions, run
the boundary reconciliation, aggregate the statistics, then apply the
step-size controller: if `b > 1` shrink both step sizes by `beta / b`, reset
`alpha`, and dispatch `tnv_restore` to all partitions exactly when not yet
`started` (otherwise only a warning is printed); if `b ≤ 1` mark `started`
and adapt the step sizes by comparing the primal residual against
`resdual * s * delta` and `resdual * s / delta`. -/
def tnv_iteration (rsqrt : ℚ → ℚ) (s : LoopState) : LoopState :=
  let r := iterCompute rsqrt s
  let thr1 := r.1
  let resprimal := r.2.1
  let resdual := r.2.2.1
  let b := r.2.2.2.2.2.2.1
  let residual := r.2.2.2.2.2.2.2
  let cNew := { s.ctx with sigma := s.sigma, tau := s.tau, theta := s.theta, thr := thr1 }
  if 1 < b then
    let s1 : LoopState := { s with ctx := cNew, tau := beta * s.tau / b,
                                   sigma := beta * s.sigma / b, alpha := alpha0,
                                   residual := residual }
    if s.started then s1
    else { s1 with ctx := { cNew with thr := thr1.map (tnv_restore cNew) },
                   restoreCount := s.restoreCount + 1 }
  else
    let s1 : LoopState := { s with ctx := cNew, started := true, residual := residual }
    if resdual * sParam * delta < resprimal then
      { s1 with tau := s.tau / (1 - s.alpha), sigma := s.sigma * (1 - s.alpha),
                alpha := s.alpha * eta }
    else if resprimal < resdual * sParam / delta then
      { s1 with tau := s.tau * (1 - s.alpha), sigma := s.sigma / (1 - s.alpha),
                alpha := s.alpha * eta }
    else s1

/-- The iteration loop of `TNV_CPU_main` (TNV_core.c lines 545-630), with the
early exit `if (residual < tol) break` checked after each iteration. -/
def mainLoop (rsqrt : ℚ → ℚ) (tol : ℚ) : ℕ → LoopState → LoopState
  | 0, s => s
  | (n+1), s =>
      let s1 := tnv_iteration rsqrt s
      if s1.residual < tol then s1 else mainLoop rsqrt tol n s1

/-- The partition count chosen by `TNV_CPU_init` (TNV_core.c lines 460-461):
the CPU count, replaced by `dimY / 2` when it exceeds `dimY`. -/
def tnvThreads (cpu dimY : ℕ) : ℕ := if dimY < cpu then dimY / 2 else cpu

/-- The partition table built by `TNV_CPU_init` (TNV_core.c lines 463-477):
each entry is `(offY, stepY, copY)`; rows split as evenly as possible with
the `dimY % threads` extra rows going to the earliest partitions, offsets
accumulated, and every partition except the last carrying one halo row. -/
def mkParts (threads dimY : ℕ) : List (ℕ × ℕ × ℕ) :=
  ((List.range threads).foldl (fun (st : ℕ × List (ℕ × ℕ × ℕ)) i =>
    let size := dimY / threads + (if i < dimY % threads then 1 else 0)
    (st.1 + size,
     st.2 ++ [(st.1, size, if i = threads - 1 then size else size + 1)])) (0, [])).2

/-- The initialisation `TNV_CPU_init` (TNV_core.c lines 446-485): if the
scheduler singleton already exists the call returns immediately without
touching any stored state; otherwise it stores the dimensions, chooses the
partition count, builds the partition table and the worker pool
(`tnv_init` buffer allocation modelled by `mkThread`). -/
def TNV_CPU_init_model (cpu : ℕ) (g : TnvGlobal) (dimX dimY dimZ : ℕ) : TnvGlobal :=
  if g.sched then g
  else
    { sched := true,
      ctx := { g.ctx with dimX := dimX, dimY := dimY, dimZ := dimZ, padZ := dimZ,
                          threads := tnvThreads cpu dimY,
                          thr := (mkParts (tnvThreads cpu dimY) dimY).map
                            (fun p => mkThread p.1 p.2.1 p.2.2) } }

/-- The entry prologue of `TNV_CPU_main` (TNV_core.c lines 513-535): store
`lambda = 1/(2*lambda)`, call `TNV_CPU_init`, then store the two volume
pointers. -/
def TNV_CPU_entry (cpu : ℕ) (g : TnvGlobal) (InputT uT : ℕ → ℚ) (lambda0 : ℚ)
    (dimX dimY dimZ : ℕ) : TnvGlobal :=
  let g1 : TnvGlobal := { g with ctx := { g.ctx with lambda := 1 / (2 * lambda0) } }
  let g2 := TNV_CPU_init_model cpu g1 dimX dimY dimZ
  { g2 with ctx := { g2.ctx with InputT := InputT, uT := uT } }

/-- The solver entry point `TNV_CPU_main` (TNV_core.c lines 507-642): entry
prologue, `tnv_start` ingest on all partitions, the iteration loop with the
step-size controller and early exit, and the `tnv_finish` writeback.
Returns the final global state and the final residual. -/
def TNV_CPU_main_model (rsqrt : ℚ → ℚ) (cpu : ℕ) (g : TnvGlobal) (InputT uT : ℕ → ℚ)
    (lambda0 : ℚ) (maxIter : ℕ) (tol : ℚ) (dimX dimY dimZ : ℕ) : TnvGlobal × ℚ :=
  let g2 := TNV_CPU_entry cpu g InputT uT lambda0 dimX dimY dimZ
  let c0 := { g2.ctx with thr := g2.ctx.thr.map (tnv_start g2.ctx) }
  let s0 : LoopState := { ctx := c0, tau := 1/2, sigma := 1/2, theta := 1,
                          alpha := alpha0, started := false, residual := fLarge,
                          restoreCount := 0 }
  let sF := mainLoop rsqrt tol maxIter s0
  let uTF := sF.ctx.thr.foldl (fun f t => tnv_finish sF.ctx f t) sF.ctx.uT
  ({ g2 with ctx := { sF.ctx with uT := uTF } }, sF.residual)

/-- The primal-residual total obtained from the instrumented cell list by the
guard actually present in the code, `(offY == 0) || (j > 0)`
(TNV_core.c line 427). -/
def guardSum (off : ℕ) : List PCell → ℚ
  | [] => 0
  | cl :: rest => (if off = 0 ∨ 0 < cl.j then cl.v else 0) + guardSum off rest

/-- Modelled from the spec: the primal-residual total as the spec sentence
describes it — the contribution `|udiff/tau + divdiff|` is included for every
row, column and channel "excluded for the very first row of the very first
partition", i.e. a cell is dropped exactly when `offY = 0` and `j = 0`. -/
def specResprimal (off : ℕ) : List PCell → ℚ
  | [] => 0
  | cl :: rest => (if off = 0 ∧ cl.j = 0 then 0 else cl.v) + specResprimal off rest

/-- Concrete 2×2×1 volume used for claim C1: rows `(0, 2)` and `(0, 2)`,
flattened as `uT[(j)*dimX + i]`. -/
def volC1 : ℕ → ℚ := fun l => if l = 1 ∨ l = 3 then 2 else 0

/-- Concrete single-partition context for claim C1 (`dimX = dimY = 2`,
`dimZ = 1`, `lambda` already transformed to `1/(2*1)`). -/
def ctxC1 : TnvCtx :=
  { threads := 1, thr := [], InputT := volC1, uT := volC1, dimX := 2, dimY := 2,
    dimZ := 1, padZ := 1, lambda := 1/2, sigma := 1/2, tau := 1/2, theta := 1 }

/-- The single partition of the C1 configuration: `offY = 0`, `stepY = 2`,
`copY = 2` (last partition carries no halo row). -/
def thrC1 : TnvThread := mkThread 0 2 2

/-- The C1 partition state immediately after ingest. -/
def startC1 : TnvThread := tnv_start ctxC1 thrC1

/-- The C1 loop state entering the very first iteration. -/
def stateC1 : LoopState :=
  { ctx := { ctxC1 with thr := [startC1] }, tau := 1/2, sigma := 1/2, theta := 1,
    alpha := alpha0, started := false, residual := fLarge, restoreCount := 0 }

/-- Concrete 2×2×1 volume used for claim C3 (same data as C1's, owned by C3). -/
def volC3 : ℕ → ℚ := fun l => if l = 1 ∨ l = 3 then 2 else 0

/-- Concrete single-partition context for claim C3. -/
def ctxC3 : TnvCtx :=
  { threads := 1, thr := [], InputT := volC3, uT := volC3, dimX := 2, dimY := 2,
    dimZ := 1, padZ := 1, lambda := 1/2, sigma := 1/2, tau := 1/2, theta := 1 }

/-- The single partition of the C3 configuration. -/
def thrC3 : TnvThread := mkThread 0 2 2

/-- The C3 partition after ingest and one `tnv_step`. -/
def stepC3 : TnvThread := tnv_step ratSqrt ctxC3 (tnv_start ctxC3 thrC3)

/-- Concrete 2×2×1 volume used for claim C4 (same data as C1's, owned by C4). -/
def volC4 : ℕ → ℚ := fun l => if l = 1 ∨ l = 3 then 2 else 0

/-- Concrete single-partition context for claim C4. -/
def ctxC4 : TnvCtx :=
  { threads := 1, thr := [], InputT := volC4, uT := volC4, dimX := 2, dimY := 2,
    dimZ := 1, padZ := 1, lambda := 1/2, sigma := 1/2, tau := 1/2, theta := 1 }

/-- The C4 loop state entering the first iteration (UNSTARTED, and the
computed balance ratio of this state exceeds 1). -/
def stateC4 : LoopState :=
  { ctx := { ctxC4 with thr := [tnv_start ctxC4 (mkThread 0 2 2)] }, tau := 1/2,
    sigma := 1/2, theta := 1, alpha := alpha0, started := false, residual := fLarge,
    restoreCount := 0 }

/-- The C4 loop state already RUNNING (`started = true`). -/
def stateC4s : LoopState := { stateC4 with started := true }

/-- An already-initialised global state used for claim C10: the singleton
exists and stores dimensions 5×6×2 with a two-partition worker pool. -/
def gC10 : TnvGlobal :=
  { sched := true,
    ctx := { threads := 2, thr := [mkThread 0 3 4, mkThread 3 3 3],
             InputT := fun _ => 0, uT := fun _ => 0, dimX := 5, dimY := 6,
             dimZ := 2, padZ := 2, lambda := 1, sigma := 1/2, tau := 1/2,
             theta := 1 } }

/-- A fresh volume passed to the second call in the C10 witness. -/
def volC10 : ℕ → ℚ := fun _ => 7

/-- Generic invariant preservation for `List.foldl`. -/
theorem foldl_inv {α β : Type} (P : α → Prop) (f : α → β → α)
    (h : ∀ s x, P s → P (f s x)) : ∀ (l : List β) (s : α), P s → P (l.foldl f s)
  | [], _, hs => hs
  | x :: xs, s, hs => foldl_inv P f h xs (f s x) (h s x hs)

/-- Clipping never produces a negative value. -/
theorem wfClip_nonneg (p s : ℚ) : 0 ≤ wfClip p s := le_max_right _ _

/-- One-step unfolding of the water-filling loop. -/
theorem wfGo_succ (f : ℕ) (p0 p1 s : ℚ) :
    wfGo (f+1) p0 p1 s =
      if 0 < wfNum (wfClip p0 s) (wfClip p1 s) then
        if 1 < |wfClip p0 s| + |wfClip p1 s| then
          wfGo f (wfClip p0 s) (wfClip p1 s)
            ((|wfClip p0 s| + |wfClip p1 s| - 1) / wfNum (wfClip p0 s) (wfClip p1 s))
        else some (wfClip p0 s, wfClip p1 s)
      else some (wfClip p0 s, wfClip p1 s) := rfl

/-- When only the second entry is positive and the shrink factor is its excess
over 1, one more pass ends the loop at `(0, 1)`. -/
theorem wfGo_final_right (f : ℕ) (a : ℚ) (h : 1 < a) :
    wfGo (f+1) 0 a (a - 1) = some (0, 1) := by
  have h0 : wfClip 0 (a - 1) = 0 := by
    unfold wfClip
    have hle : (0:ℚ) - (a - 1) ≤ 0 := by linarith
    exact max_eq_right hle
  have h1 : wfClip a (a - 1) = 1 := by
    unfold wfClip
    have hv : a - (a - 1) = 1 := by ring
    rw [hv]
    norm_num
  rw [wfGo_succ, h0, h1]
  norm_num [wfNum]

/-- Mirror image of `wfGo_final_right`. -/
theorem wfGo_final_left (f : ℕ) (a : ℚ) (h : 1 < a) :
    wfGo (f+1) a 0 (a - 1) = some (1, 0) := by
  have h0 : wfClip 0 (a - 1) = 0 := by
    unfold wfClip
    have hle : (0:ℚ) - (a - 1) ≤ 0 := by linarith
    exact max_eq_right hle
  have h1 : wfClip a (a - 1) = 1 := by
    unfold wfClip
    have hv : a - (a - 1) = 1 := by ring
    rw [hv]
    norm_num
  rw [wfGo_succ, h0, h1]
  norm_num [wfNum]

/-- From a state with two positive entries of excessive total mass and the
shrink factor the loop would compute for them, at most two more passes end
the loop with total mass at most 1. -/
theorem wfGo_two (f : ℕ) (a b : ℚ) (_ha : 0 < a) (_hb : 0 < b) (hab : 1 < a + b) :
    ∃ q0 q1 : ℚ, wfGo (f+1+1) a b ((a + b - 1) / 2) = some (q0, q1) ∧
      0 ≤ q0 ∧ 0 ≤ q1 ∧ q0 + q1 ≤ 1 := by
  have hs0 : 0 < (a + b - 1) / 2 := div_pos (by linarith) (by norm_num)
  rcases le_or_lt a ((a + b - 1) / 2) with hA | hA <;>
    rcases le_or_lt b ((a + b - 1) / 2) with hB | hB
  · exfalso
    linarith
  · -- a is clipped to zero, b survives
    have hca : wfClip a ((a + b - 1) / 2) = 0 := max_eq_right (by linarith)
    have hcb : wfClip b ((a + b - 1) / 2) = b - (a + b - 1) / 2 := max_eq_left (by linarith)
    have hbpos : 0 < b - (a + b - 1) / 2 := by linarith
    rw [wfGo_succ, hca, hcb, abs_of_nonneg (le_refl (0:ℚ)), abs_of_nonneg hbpos.le]
    have hnum : wfNum 0 (b - (a + b - 1) / 2) = 1 := by
      simp [wfNum, ne_of_gt hbpos]
    rw [hnum, if_pos (by norm_num : (0:ℚ) < 1)]
    rcases le_or_lt (b - (a + b - 1) / 2) 1 with hle | hlt
    · rw [if_neg (by linarith)]
      exact ⟨0, b - (a + b - 1) / 2, rfl, le_refl 0, hbpos.le, by linarith⟩
    · rw [if_pos (by linarith)]
      have hshr : (0 + (b - (a + b - 1) / 2) - 1) / 1 = (b - (a + b - 1) / 2) - 1 := by
        ring
      rw [hshr, wfGo_final_right f _ hlt]
      exact ⟨0, 1, rfl, le_refl 0, by norm_num, by norm_num⟩
  · -- b is clipped to zero, a survives
    have hcb : wfClip b ((a + b - 1) / 2) = 0 := max_eq_right (by linarith)
    have hca : wfClip a ((a + b - 1) / 2) = a - (a + b - 1) / 2 := max_eq_left (by linarith)
    have hapos : 0 < a - (a + b - 1) / 2 := by linarith
    rw [wfGo_succ, hca, hcb, abs_of_nonneg hapos.le, abs_of_nonneg (le_refl (0:ℚ))]
    have hnum : wfNum (a - (a + b - 1) / 2) 0 = 1 := by
      simp [wfNum, ne_of_gt hapos]
    rw [hnum, if_pos (by norm_num : (0:ℚ) < 1)]
    rcases le_or_lt (a - (a + b - 1) / 2) 1 with hle | hlt
    · rw [if_neg (by linarith)]
      exact ⟨a - (a + b - 1) / 2, 0, rfl, hapos.le, le_refl 0, by linarith⟩
    · rw [if_pos (by linarith)]
      have hshr : (a - (a + b - 1) / 2 + 0 - 1) / 1 = (a - (a + b - 1) / 2) - 1 := by
        ring
      rw [hshr, wfGo_final_left f _ hlt]
      exact ⟨1, 0, rfl, by norm_num, le_refl 0, by norm_num⟩
  · -- both survive: the pass lands exactly on total mass 1
    have hca : wfClip a ((a + b - 1) / 2) = a - (a + b - 1) / 2 := max_eq_left (by linarith)
    have hcb : wfClip b ((a + b - 1) / 2) = b - (a + b - 1) / 2 := max_eq_left (by linarith)
    have hapos : 0 < a - (a + b - 1) / 2 := by linarith
    have hbpos : 0 < b - (a + b - 1) / 2 := by linarith
    rw [wfGo_succ, hca, hcb, abs_of_nonneg hapos.le, abs_of_nonneg hbpos.le]
    have hnum : wfNum (a - (a + b - 1) / 2) (b - (a + b - 1) / 2) = 2 := by
      simp [wfNum, ne_of_gt hapos, ne_of_gt hbpos]
      norm_num
    have hsum : a - (a + b - 1) / 2 + (b - (a + b - 1) / 2) = 1 := by ring
    rw [hnum, if_pos (by norm_num : (0:ℚ) < 2), hsum, if_neg (by norm_num)]
    exact ⟨_, _, rfl, hapos.le, hbpos.le, le_of_eq hsum⟩

/-- The water-filling loop always terminates within the modelled fuel, with
non-negative projected magnitudes of total mass at most 1. -/
theorem wf_terminates (p0 p1 : ℚ) :
    ∃ q0 q1 : ℚ, wfGo wfFuel p0 p1 0 = some (q0, q1) ∧
      0 ≤ q0 ∧ 0 ≤ q1 ∧ q0 + q1 ≤ 1 := by
  have h4 : wfGo wfFuel p0 p1 0 = wfGo (1+1+1+1) p0 p1 0 := rfl
  rw [h4, wfGo_succ]
  have ha : 0 ≤ wfClip p0 0 := wfClip_nonneg _ _
  have hb : 0 ≤ wfClip p1 0 := wfClip_nonneg _ _
  rw [abs_of_nonneg ha, abs_of_nonneg hb]
  by_cases hz : 0 < wfNum (wfClip p0 0) (wfClip p1 0)
  · rw [if_pos hz]
    by_cases hsum : 1 < wfClip p0 0 + wfClip p1 0
    · rw [if_pos hsum]
      rcases ha.eq_or_lt with haz | hapos
      · -- first entry already zero
        have hbpos : 0 < wfClip p1 0 := by linarith [haz]
        have hnum : wfNum (wfClip p0 0) (wfClip p1 0) = 1 := by
          simp [wfNum, ← haz, ne_of_gt hbpos]
        have hshr : (wfClip p0 0 + wfClip p1 0 - 1) / wfNum (wfClip p0 0) (wfClip p1 0) =
            wfClip p1 0 - 1 := by
          rw [hnum, ← haz]
          ring
        rw [hshr, ← haz, wfGo_final_right (1+1) _ (by linarith [haz])]
        exact ⟨0, 1, rfl, le_refl 0, by norm_num, by norm_num⟩
      · rcases hb.eq_or_lt with hbz | hbpos
        · -- second entry already zero
          have hnum : wfNum (wfClip p0 0) (wfClip p1 0) = 1 := by
            simp [wfNum, ← hbz, ne_of_gt hapos]
          have hshr : (wfClip p0 0 + wfClip p1 0 - 1) / wfNum (wfClip p0 0) (wfClip p1 0) =
              wfClip p0 0 - 1 := by
            rw [hnum, ← hbz]
            ring
          rw [hshr, ← hbz, wfGo_final_left (1+1) _ (by linarith [hbz])]
          exact ⟨1, 0, rfl, by norm_num, le_refl 0, by norm_num⟩
        · -- both positive: two-entry analysis
          have hnum : wfNum (wfClip p0 0) (wfClip p1 0) = 2 := by
            simp [wfNum, ne_of_gt hapos, ne_of_gt hbpos]
            norm_num
          rw [hnum]
          exact wfGo_two 1 _ _ hapos hbpos hsum
    · rw [if_neg hsum]
      exact ⟨_, _, rfl, ha, hb, le_of_not_lt hsum⟩
  · rw [if_neg hz]
    have haz : wfClip p0 0 = 0 := by
      by_contra hne
      exact hz (by simp [wfNum, hne]; positivity)
    have hbz : wfClip p1 0 = 0 := by
      by_contra hne
      exact hz (by simp [wfNum, hne]; positivity)
    exact ⟨_, _, rfl, ha, hb, by rw [haz, hbz]; norm_num⟩

/-- Running the water-filling loop on two equal entries yields equal
entries (after the `Option.getD` default, which is also symmetric). -/
theorem wfGo_pair_eq : ∀ (f : ℕ) (p s : ℚ),
    ((wfGo f p p s).getD (0, 0)).1 = ((wfGo f p p s).getD (0, 0)).2
  | 0, _, _ => rfl
  | (f+1), p, s => by
      rw [wfGo_succ]
      by_cases h1 : 0 < wfNum (wfClip p s) (wfClip p s)
      · rw [if_pos h1]
        by_cases h2 : 1 < |wfClip p s| + |wfClip p s|
        · rw [if_pos h2]
          exact wfGo_pair_eq f _ _
        · rw [if_neg h2]
          rfl
      · rw [if_neg h1]
        rfl

/-- Claim C7: for every input matrix with `M1 ≥ 0`, `M3 ≥ 0` and
`M1*M3 ≥ M2²`, the two singular values `sig1`, `sig2` computed inside the
proximal operator (square roots of the clamped eigenvalues) satisfy
`sig1 ≥ sig2 ≥ 0`; stated for any square-root model that is non-negative and
monotone on non-negative arguments, as the real `sqrtf` is. -/
theorem C7_sigs_ordered (rsqrt : ℚ → ℚ)
    (hnn : ∀ x, 0 ≤ x → 0 ≤ rsqrt x)
    (hmono : ∀ x y, 0 ≤ x → x ≤ y → rsqrt x ≤ rsqrt y)
    (M1 M2 M3 : ℚ) (_h1 : 0 ≤ M1) (_h3 : 0 ≤ M3) (_hpsd : M2 * M2 ≤ M1 * M3) :
    0 ≤ (coefSigs rsqrt M1 M2 M3).2 ∧
      (coefSigs rsqrt M1 M2 M3).2 ≤ (coefSigs rsqrt M1 M2 M3).1 := by
  have hdet : 0 ≤ rsqrt (max ((M1 + M3) * (M1 + M3) / 4 - (M1 * M3 - M2 * M2)) 0) :=
    hnn _ (le_max_right _ _)
  constructor
  · exact hnn _ (le_max_right _ _)
  · simp only [coefSigs, coefEigs]
    apply hmono _ _ (le_max_right _ _)
    exact max_le_max (by linarith) (le_refl 0)

/-- Witness for C7 at the concrete PSD matrix `(1, 0, 1)` with the identity
as square-root model. -/
theorem C7_witness :
    (∀ x : ℚ, 0 ≤ x → 0 ≤ (fun y : ℚ => y) x) ∧
    (∀ x y : ℚ, 0 ≤ x → x ≤ y → (fun z : ℚ => z) x ≤ (fun z : ℚ => z) y) ∧
    (0:ℚ) ≤ 1 ∧ (0:ℚ) * 0 ≤ 1 * 1 ∧
    (0 ≤ (coefSigs (fun y : ℚ => y) 1 0 1).2 ∧
      (coefSigs (fun y : ℚ => y) 1 0 1).2 ≤ (coefSigs (fun y : ℚ => y) 1 0 1).1) :=
  ⟨fun _ h => h, fun _ _ _ h => h, by norm_num, by norm_num,
   C7_sigs_ordered (fun y : ℚ => y) (fun _ h => h) (fun _ _ _ h => h) 1 0 1
     (by norm_num) (by norm_num) (by norm_num)⟩

/-- Claim C8: in the bounded/infinity-norm branch of the proximal operator,
for every input matrix and `sigma > 0`, the water-filling loop applied to the
projected magnitudes `(sigma*|sig1|, sigma*|sig2|)` terminates (within the
modelled fuel) and the resulting projected magnitudes satisfy
`proj0 + proj1 ≤ 1`, hence `≤ 1 + eps` for every tolerance `eps ≥ 0`. -/
theorem C8_waterfill_bounded (rsqrt : ℚ → ℚ) (M1 M2 M3 sigma : ℚ) (_hs : 0 < sigma) :
    ∃ q0 q1 : ℚ,
      wfGo wfFuel (sigma * |(coefSigs rsqrt M1 M2 M3).1|)
          (sigma * |(coefSigs rsqrt M1 M2 M3).2|) 0 = some (q0, q1) ∧
        ∀ eps : ℚ, 0 ≤ eps → q0 + q1 ≤ 1 + eps := by
  obtain ⟨q0, q1, heq, _, _, hle⟩ :=
    wf_terminates (sigma * |(coefSigs rsqrt M1 M2 M3).1|)
      (sigma * |(coefSigs rsqrt M1 M2 M3).2|)
  exact ⟨q0, q1, heq, fun eps heps => by linarith⟩

/-- Witness for C8 at the matrix `(1, 0, 1)` with `sigma = 1` and the
identity square-root model. -/
theorem C8_witness :
    (0:ℚ) < 1 ∧
    ∃ q0 q1 : ℚ,
      wfGo wfFuel ((1:ℚ) * |(coefSigs (fun y : ℚ => y) 1 0 1).1|)
          ((1:ℚ) * |(coefSigs (fun y : ℚ => y) 1 0 1).2|) 0 = some (q0, q1) ∧
        ∀ eps : ℚ, 0 ≤ eps → q0 + q1 ≤ 1 + eps :=
  ⟨by norm_num, C8_waterfill_bounded (fun y : ℚ => y) 1 0 1 1 (by norm_num)⟩

/-- Claim C9: the `p` argument `tnv_step` passes to `coefF` is the constant
`1`; with that argument the shrinkage executed inside `coefF` is the L1 soft
threshold, and since `INFNORM ≠ 1` the water-filling branch is not the one
selected on any call made during a solve. -/
theorem C9_always_soft_threshold :
    stepP = 1 ∧ INFNORM ≠ stepP ∧
      (∀ s1 s2 sigma : ℚ,
        coefUpd s1 s2 sigma stepP = (max (s1 - 1 / sigma) 0, max (s2 - 1 / sigma) 0)) :=
  ⟨rfl, by decide, fun s1 s2 sigma => by simp [coefUpd, stepP]⟩

/-- Claim C6: for any input matrix with `M2 = 0` and `M1 = M3`, and any
`sigma > 0`, under both shrinkage rules (`p = 1` and `p = INFNORM`) the
proximal operator returns a scalar multiple of the identity: the off-diagonal
entry `t1` is zero and the diagonal entries `t0` and `t2` coincide.  The only
property required of the square-root model is `rsqrt 0 = 0` (true of
`sqrtf`). -/
theorem C6_identity_multiple (rsqrt : ℚ → ℚ) (M1 M2 M3 sigma : ℚ) (q r : ℤ)
    (h0 : rsqrt 0 = 0) (h2 : M2 = 0) (h13 : M1 = M3) (_hs : 0 < sigma)
    (p : ℤ) (hp : p = 1 ∨ p = INFNORM) :
    (coefF rsqrt M1 M2 M3 sigma p q r).2.1 = 0 ∧
      (coefF rsqrt M1 M2 M3 sigma p q r).1 = (coefF rsqrt M1 M2 M3 sigma p q r).2.2 := by
  subst h2
  subst h13
  have harg : max ((M1 + M1) * (M1 + M1) / 4 - (M1 * M1 - 0 * 0)) 0 = 0 := by
    have hv : (M1 + M1) * (M1 + M1) / 4 - (M1 * M1 - 0 * 0) = 0 := by ring
    rw [hv]
    exact max_self 0
  have hE : coefEigs rsqrt M1 0 M1 = (max M1 0, max M1 0) := by
    unfold coefEigs
    rw [harg, h0]
    norm_num
  have hS : coefSigs rsqrt M1 0 M1 = (rsqrt (max M1 0), rsqrt (max M1 0)) := by
    unfold coefSigs
    rw [hE]
  have hV : coefVs rsqrt M1 0 M1 = (0, 1, 1, 0) := by
    unfold coefVs
    simp
  have hU : (coefUpd (rsqrt (max M1 0)) (rsqrt (max M1 0)) sigma p).1 =
      (coefUpd (rsqrt (max M1 0)) (rsqrt (max M1 0)) sigma p).2 := by
    rcases hp with hp | hp
    · simp [coefUpd, hp]
    · by_cases h1 : p = 1
      · simp [coefUpd, h1]
      · simp only [coefUpd, if_neg h1, if_pos hp]
        rw [wfGo_pair_eq wfFuel (sigma * |rsqrt (max M1 0)|) 0]
  unfold coefF
  rw [hS, hV, hU]
  constructor
  · ring
  · ring

/-- Witness for C6 at the matrix `(1, 0, 1)`, `sigma = 1`, `p = 1`, with the
constant-zero square-root model (which satisfies `rsqrt 0 = 0`). -/
theorem C6_witness :
    (fun _ : ℚ => (0:ℚ)) 0 = 0 ∧ (0:ℚ) = 0 ∧ (1:ℚ) = 1 ∧ (0:ℚ) < 1 ∧
      ((1:ℤ) = 1 ∨ (1:ℤ) = INFNORM) ∧
      ((coefF (fun _ : ℚ => 0) 1 0 1 1 1 1 0).2.1 = 0 ∧
        (coefF (fun _ : ℚ => 0) 1 0 1 1 1 1 0).1 =
          (coefF (fun _ : ℚ => 0) 1 0 1 1 1 1 0).2.2) :=
  ⟨rfl, rfl, rfl, by norm_num, Or.inl rfl,
   C6_identity_multiple (fun _ : ℚ => 0) 1 0 1 1 1 0 rfl rfl rfl (by norm_num) 1
     (Or.inl rfl)⟩

/-- Claim C2 counterexample: with available parallelism 2 and `dimY = 2`
(which satisfies `dimY ≥ 2`), `TNV_CPU_init` chooses `P = 2` partitions
(`threads > dimY` is false, so the cap is never applied), and `2` is not
`≤ dimY/2 = 1`. -/
theorem C2_counterexample :
    2 ≤ (2:ℕ) ∧ tnvThreads 2 2 = 2 ∧ ¬ tnvThreads 2 2 ≤ 2 / 2 := by decide

/-- Claim C2 (amended): the partition count P chosen by initialization always
satisfies `P ≤ available parallelism`, but `P ≤ dimY/2` only in the branch
where the parallelism exceeds `dimY`; when the parallelism is at most `dimY`,
P equals the parallelism (and may exceed `dimY/2`). -/
theorem C2_amended (cpu dimY : ℕ) (_hY : 2 ≤ dimY) :
    tnvThreads cpu dimY ≤ cpu ∧ (dimY < cpu → tnvThreads cpu dimY ≤ dimY / 2) ∧
      (cpu ≤ dimY → tnvThreads cpu dimY = cpu) := by
  refine ⟨?_, ?_, ?_⟩ <;> unfold tnvThreads <;> split_ifs <;> omega

/-- Witness for the amended C2 at `cpu = 8`, `dimY = 6`. -/
theorem C2_witness :
    2 ≤ (6:ℕ) ∧
      (tnvThreads 8 6 ≤ 8 ∧ (6 < 8 → tnvThreads 8 6 ≤ 6 / 2) ∧
        (8 ≤ 6 → tnvThreads 8 6 = 8)) :=
  ⟨by norm_num, C2_amended 8 6 (by norm_num)⟩

/-- Claim C10: on any call to the solver entry after the scheduler singleton
exists, initialization returns immediately: the stored dimensions, padding,
partition count and worker pool (the per-partition contexts) are reused
unchanged even if the new call passes different dimensions; only `lambda` and
the two volume pointers are refreshed. -/
theorem C10_singleton_reuse (cpu : ℕ) (g : TnvGlobal) (InT uT : ℕ → ℚ)
    (lambda0 : ℚ) (dimX dimY dimZ : ℕ) (hs : g.sched = true) :
    (TNV_CPU_entry cpu g InT uT lambda0 dimX dimY dimZ).ctx.dimX = g.ctx.dimX ∧
    (TNV_CPU_entry cpu g InT uT lambda0 dimX dimY dimZ).ctx.dimY = g.ctx.dimY ∧
    (TNV_CPU_entry cpu g InT uT lambda0 dimX dimY dimZ).ctx.dimZ = g.ctx.dimZ ∧
    (TNV_CPU_entry cpu g InT uT lambda0 dimX dimY dimZ).ctx.padZ = g.ctx.padZ ∧
    (TNV_CPU_entry cpu g InT uT lambda0 dimX dimY dimZ).ctx.threads = g.ctx.threads ∧
    (TNV_CPU_entry cpu g InT uT lambda0 dimX dimY dimZ).ctx.thr = g.ctx.thr ∧
    (TNV_CPU_entry cpu g InT uT lambda0 dimX dimY dimZ).sched = true ∧
    (TNV_CPU_entry cpu g InT uT lambda0 dimX dimY dimZ).ctx.lambda = 1 / (2 * lambda0) ∧
    (TNV_CPU_entry cpu g InT uT lambda0 dimX dimY dimZ).ctx.InputT = InT ∧
    (TNV_CPU_entry cpu g InT uT lambda0 dimX dimY dimZ).ctx.uT = uT := by
  unfold TNV_CPU_entry TNV_CPU_init_model
  simp [hs]

/-- Witness for C10: the initialised state `gC10` (dimensions 5×6×2, two
partitions) is passed new dimensions 9×9×9, a new volume and a new `lambda`;
everything but `lambda` and the volume pointers is reused. -/
theorem C10_witness :
    gC10.sched = true ∧
      ((TNV_CPU_entry 4 gC10 volC10 volC10 1 9 9 9).ctx.dimX = gC10.ctx.dimX ∧
       (TNV_CPU_entry 4 gC10 volC10 volC10 1 9 9 9).ctx.dimY = gC10.ctx.dimY ∧
       (TNV_CPU_entry 4 gC10 volC10 volC10 1 9 9 9).ctx.dimZ = gC10.ctx.dimZ ∧
       (TNV_CPU_entry 4 gC10 volC10 volC10 1 9 9 9).ctx.padZ = gC10.ctx.padZ ∧
       (TNV_CPU_entry 4 gC10 volC10 volC10 1 9 9 9).ctx.threads = gC10.ctx.threads ∧
       (TNV_CPU_entry 4 gC10 volC10 volC10 1 9 9 9).ctx.thr = gC10.ctx.thr ∧
       (TNV_CPU_entry 4 gC10 volC10 volC10 1 9 9 9).sched = true ∧
       (TNV_CPU_entry 4 gC10 volC10 volC10 1 9 9 9).ctx.lambda = 1 / (2 * 1) ∧
       (TNV_CPU_entry 4 gC10 volC10 volC10 1 9 9 9).ctx.InputT = volC10 ∧
       (TNV_CPU_entry 4 gC10 volC10 volC10 1 9 9 9).ctx.uT = volC10) :=
  ⟨rfl, C10_singleton_reuse 4 gC10 volC10 volC10 1 9 9 9 rfl⟩

/-- Once `started` holds, one iteration never dispatches a restore and keeps
`started` set. -/
theorem iteration_started_stable (rsqrt : ℚ → ℚ) (s : LoopState) (h : s.started = true) :
    (tnv_iteration rsqrt s).restoreCount = s.restoreCount ∧
      (tnv_iteration rsqrt s).started = true := by
  simp only [tnv_iteration]
  split_ifs <;> simp_all

/-- Claim C4: whenever an iteration's balance ratio satisfies `b > 1`, the
controller sets `tau := beta*tau/b`, `sigma := beta*sigma/b` and resets
`alpha := alpha0`; it dispatches `tnv_restore` if and only if the solve is
still UNSTARTED (`started = false`), and it leaves `started` unchanged.  When
`b ≤ 1` the iteration marks the solve RUNNING and dispatches no restore; and
once RUNNING, no later iteration of the loop ever dispatches a restore. -/
theorem C4_backtracking_controller (rsqrt : ℚ → ℚ) (tol : ℚ) (s : LoopState) (n : ℕ) :
    (1 < iterB rsqrt s →
      ((tnv_iteration rsqrt s).tau = beta * s.tau / iterB rsqrt s ∧
       (tnv_iteration rsqrt s).sigma = beta * s.sigma / iterB rsqrt s ∧
       (tnv_iteration rsqrt s).alpha = alpha0) ∧
      ((tnv_iteration rsqrt s).restoreCount = s.restoreCount + 1 ↔ s.started = false) ∧
      (tnv_iteration rsqrt s).started = s.started) ∧
    (iterB rsqrt s ≤ 1 →
      (tnv_iteration rsqrt s).restoreCount = s.restoreCount ∧
      (tnv_iteration rsqrt s).started = true) ∧
    (s.started = true → (mainLoop rsqrt tol n s).restoreCount = s.restoreCount) := by
  have hloop : ∀ (m : ℕ) (s' : LoopState), s'.started = true →
      (mainLoop rsqrt tol m s').restoreCount = s'.restoreCount := by
    intro m
    induction m with
    | zero => intro s' _; rfl
    | succ m ih =>
        intro s' h
        obtain ⟨hc, hs1⟩ := iteration_started_stable rsqrt s' h
        simp only [mainLoop]
        split_ifs with ht
        · exact hc
        · rw [ih _ hs1, hc]
  refine ⟨?_, ?_, fun h => hloop n s h⟩
  · intro hb
    simp only [iterB] at hb
    simp only [tnv_iteration, iterB]
    rw [if_pos hb]
    split_ifs with hst <;> simp_all
  · intro hb
    simp only [iterB] at hb
    simp only [tnv_iteration]
    rw [if_neg (not_lt.mpr hb)]
    split_ifs <;> simp_all

/-- Witness for C4: the concrete UNSTARTED state `stateC4` has first-iteration
balance ratio `8/3 > 1` (so the `b > 1` conjuncts apply with their hypothesis
discharged by evaluation), and the RUNNING state `stateC4s` never restores in
any remaining iterations. -/
theorem C4_witness :
    1 < iterB ratSqrt stateC4 ∧
    ((tnv_iteration ratSqrt stateC4).tau = beta * stateC4.tau / iterB ratSqrt stateC4 ∧
     (tnv_iteration ratSqrt stateC4).sigma = beta * stateC4.sigma / iterB ratSqrt stateC4 ∧
     (tnv_iteration ratSqrt stateC4).alpha = alpha0) ∧
    ((tnv_iteration ratSqrt stateC4).restoreCount = stateC4.restoreCount + 1 ↔
      stateC4.started = false) ∧
    (tnv_iteration ratSqrt stateC4).started = stateC4.started ∧
    stateC4s.started = true ∧
    (mainLoop ratSqrt (1/1000) 5 stateC4s).restoreCount = stateC4s.restoreCount :=
  ⟨by with_unfolding_all decide,
   ((C4_backtracking_controller ratSqrt (1/1000) stateC4 0).1
     (by with_unfolding_all decide)).1,
   ((C4_backtracking_controller ratSqrt (1/1000) stateC4 0).1
     (by with_unfolding_all decide)).2.1,
   ((C4_backtracking_controller ratSqrt (1/1000) stateC4 0).1
     (by with_unfolding_all decide)).2.2,
   rfl,
   (C4_backtracking_controller ratSqrt (1/1000) stateC4s 5).2.2 rfl⟩

/-- One iteration leaves the noisy input volume pointer untouched. -/
theorem iteration_InputT (rsqrt : ℚ → ℚ) (s : LoopState) :
    (tnv_iteration rsqrt s).ctx.InputT = s.ctx.InputT := by
  simp only [tnv_iteration]
  split_ifs <;> rfl

/-- The whole iteration loop leaves the noisy input volume pointer
untouched. -/
theorem mainLoop_InputT (rsqrt : ℚ → ℚ) (tol : ℚ) :
    ∀ (n : ℕ) (s : LoopState), (mainLoop rsqrt tol n s).ctx.InputT = s.ctx.InputT
  | 0, _ => rfl
  | (n+1), s => by
      simp only [mainLoop]
      split_ifs with h
      · exact iteration_InputT rsqrt s
      · rw [mainLoop_InputT rsqrt tol n _, iteration_InputT rsqrt s]

/-- Claim C5: a complete call to the solver entry point leaves the noisy
input volume exactly as it was; every phase writes only into partition-local
buffers or the estimate volume `uT`. -/
theorem C5_input_volume_unchanged (rsqrt : ℚ → ℚ) (cpu : ℕ) (g : TnvGlobal)
    (InT uT : ℕ → ℚ) (lambda0 : ℚ) (maxIter : ℕ) (tol : ℚ) (dimX dimY dimZ : ℕ) :
    (TNV_CPU_main_model rsqrt cpu g InT uT lambda0 maxIter tol
      dimX dimY dimZ).1.ctx.InputT = InT := by
  unfold TNV_CPU_main_model
  simp only [mainLoop_InputT]
  rfl

/-- Appending one cell to the instrumentation list adds its guarded
contribution to the guarded sum. -/
theorem guardSum_append (off : ℕ) (xs : List PCell) (cl : PCell) :
    guardSum off (xs ++ [cl]) =
      guardSum off xs + (if off = 0 ∨ 0 < cl.j then cl.v else 0) := by
  induction xs with
  | nil => simp [guardSum]
  | cons x xs ih =>
      simp only [List.cons_append, guardSum]
      rw [show (xs.append [cl] : List PCell) = xs ++ [cl] from rfl, ih]
      ring

/-- Claim C3 (amended): in every iteration, the primal residual a partition
accumulates equals the sum of the per-cell contributions
`|udiff/tau + divdiff|` over exactly the cells allowed by the guard
`offY = 0 ∨ j > 0`: every row, column and channel is included except that
row 0 is excluded for every partition other than the first (`offY ≠ 0`);
row 0 of the very first partition is included, not excluded. -/
theorem C3_resprimal_guard (rsqrt : ℚ → ℚ) (c : TnvCtx) (t : TnvThread) :
    (tnv_step rsqrt c t).offY = t.offY ∧
      (tnv_step rsqrt c t).resprimal =
        guardSum t.offY (tnv_step rsqrt c t).pcells := by
  have hB : ∀ (j i : ℕ) (st : TnvThread × StepScratch),
      (st.1.offY = t.offY ∧ st.1.resprimal = guardSum t.offY st.1.pcells) →
      ((stepPhaseB rsqrt c j i st).offY = t.offY ∧
        (stepPhaseB rsqrt c j i st).resprimal =
          guardSum t.offY (stepPhaseB rsqrt c j i st).pcells) := by
    intro j i st hst
    unfold stepPhaseB
    apply foldl_inv
      (fun s : TnvThread => s.offY = t.offY ∧ s.resprimal = guardSum t.offY s.pcells)
    · intro s k hs
      refine ⟨hs.1, ?_⟩
      show s.resprimal + _ = guardSum t.offY (s.pcells ++ [_])
      rw [guardSum_append, ← hs.2, hs.1]
    · exact hst
  have hA : ∀ (j i : ℕ) (s : TnvThread),
      (s.offY = t.offY ∧ s.resprimal = guardSum t.offY s.pcells) →
      ((stepPhaseA c j i s).1.offY = t.offY ∧
        (stepPhaseA c j i s).1.resprimal =
          guardSum t.offY (stepPhaseA c j i s).1.pcells) := by
    intro j i s hs
    unfold stepPhaseA
    apply foldl_inv
      (fun st : TnvThread × StepScratch =>
        st.1.offY = t.offY ∧ st.1.resprimal = guardSum t.offY st.1.pcells)
    · intro st k hst
      exact hst
    · exact hs
  unfold tnv_step
  apply foldl_inv
    (fun s : TnvThread => s.offY = t.offY ∧ s.resprimal = guardSum t.offY s.pcells)
  · intro s j hs
    apply foldl_inv
      (fun s : TnvThread => s.offY = t.offY ∧ s.resprimal = guardSum t.offY s.pcells)
    · intro s' i hs'
      exact hB j i _ (hA j i s' hs')
    · exact hs
  · -- the prologue preserves the invariant, starting from the reset record
    apply foldl_inv
      (fun s : TnvThread => s.offY = t.offY ∧ s.resprimal = guardSum t.offY s.pcells)
    · intro s i hs
      apply foldl_inv
        (fun s : TnvThread => s.offY = t.offY ∧ s.resprimal = guardSum t.offY s.pcells)
      · intro s' k hs'
        exact hs'
      · exact hs
    · exact ⟨rfl, rfl⟩

/-- Claim C3 counterexample: on the concrete single-partition (offset 0) run
`stepC3`, the accumulated primal residual is 4 — the contributions of all
four cells, including both row-0 cells of the first partition — whereas the
spec sentence ("excluded for the very first row of the very first partition")
prescribes 2. -/
theorem C3_counterexample :
    stepC3.resprimal = 4 ∧ specResprimal stepC3.offY stepC3.pcells = 2 ∧
      stepC3.resprimal ≠ specResprimal stepC3.offY stepC3.pcells := by
  refine ⟨?_, ?_, ?_⟩ <;> with_unfolding_all decide

/-- After ingest, the dual, gradient and divergence buffers are exactly the
zeroed buffers: the copy loops of `tnv_start` write only `Input` and `u`. -/
theorem tnv_start_duals (c : TnvCtx) (t : TnvThread) :
    (tnv_start c t).qx = memset0 t.qx (c.dimX * t.stepY * c.padZ) ∧
    (tnv_start c t).qy = memset0 t.qy (c.dimX * t.stepY * c.padZ) ∧
    (tnv_start c t).gradx = memset0 t.gradx (c.dimX * t.stepY * c.padZ) ∧
    (tnv_start c t).grady = memset0 t.grady (c.dimX * t.stepY * c.padZ) ∧
    (tnv_start c t).div = memset0 t.div (c.dimX * t.copY * c.padZ) := by
  unfold tnv_start
  apply foldl_inv (fun s : TnvThread =>
    s.qx = memset0 t.qx (c.dimX * t.stepY * c.padZ) ∧
    s.qy = memset0 t.qy (c.dimX * t.stepY * c.padZ) ∧
    s.gradx = memset0 t.gradx (c.dimX * t.stepY * c.padZ) ∧
    s.grady = memset0 t.grady (c.dimX * t.stepY * c.padZ) ∧
    s.div = memset0 t.div (c.dimX * t.copY * c.padZ))
  · intro s k hs
    apply foldl_inv (fun s : TnvThread =>
      s.qx = memset0 t.qx (c.dimX * t.stepY * c.padZ) ∧
      s.qy = memset0 t.qy (c.dimX * t.stepY * c.padZ) ∧
      s.gradx = memset0 t.gradx (c.dimX * t.stepY * c.padZ) ∧
      s.grady = memset0 t.grady (c.dimX * t.stepY * c.padZ) ∧
      s.div = memset0 t.div (c.dimX * t.copY * c.padZ))
    · intro s' j hs'
      apply foldl_inv (fun s : TnvThread =>
        s.qx = memset0 t.qx (c.dimX * t.stepY * c.padZ) ∧
        s.qy = memset0 t.qy (c.dimX * t.stepY * c.padZ) ∧
        s.gradx = memset0 t.gradx (c.dimX * t.stepY * c.padZ) ∧
        s.grady = memset0 t.grady (c.dimX * t.stepY * c.padZ) ∧
        s.div = memset0 t.div (c.dimX * t.copY * c.padZ))
      · intro s'' i hs''
        exact hs''
      · exact hs'
    · exact hs
  · exact ⟨rfl, rfl, rfl, rfl, rfl⟩

/-- Claim C1 (amended): when the very first iteration's balance ratio exceeds
1 (still UNSTARTED), the orchestrator dispatches `tnv_restore` to every
partition; afterwards the `qx`, `qy`, `gradx`, `grady`, `div` buffers equal
their post-ingest state (all zero), but `u` is reset to zero rather than to
its post-ingest state — the post-restore `u` equals the post-ingest `u` only
at cells where the ingested warm-start band is itself zero. -/
theorem C1_restore_rollback (rsqrt : ℚ → ℚ) (s : LoopState) (c : TnvCtx)
    (t t' : TnvThread) (l : ℕ) (hb : 1 < iterB rsqrt s) (hst : s.started = false)
    (hstep : t'.stepY = t.stepY) (hcop : t'.copY = t.copY) :
    ((tnv_iteration rsqrt s).ctx.thr =
        ((iterCompute rsqrt s).1).map
          (tnv_restore { s.ctx with sigma := s.sigma, tau := s.tau, theta := s.theta,
                                    thr := (iterCompute rsqrt s).1 }) ∧
      (tnv_iteration rsqrt s).restoreCount = s.restoreCount + 1) ∧
    (l < c.dimX * t.stepY * c.padZ →
      ((tnv_restore c t').qx l = (tnv_start c t).qx l ∧
       (tnv_restore c t').qy l = (tnv_start c t).qy l ∧
       (tnv_restore c t').gradx l = (tnv_start c t).gradx l ∧
       (tnv_restore c t').grady l = (tnv_start c t).grady l)) ∧
    (l < c.dimX * t.copY * c.padZ →
      ((tnv_restore c t').div l = (tnv_start c t).div l ∧
       (tnv_restore c t').u l = 0)) := by
  obtain ⟨hqx, hqy, hgx, hgy, hdiv⟩ := tnv_start_duals c t
  constructor
  · simp only [tnv_iteration, iterB] at hb ⊢
    rw [if_pos hb, if_neg (by simp [hst])]
    exact ⟨rfl, rfl⟩
  constructor
  · intro hl
    refine ⟨?_, ?_, ?_, ?_⟩ <;>
      simp [tnv_restore, hqx, hqy, hgx, hgy, memset0, hl, hstep ▸ hl]
  · intro hl
    constructor
    · simp [tnv_restore, hdiv, memset0, hl, hcop ▸ hl]
    · simp [tnv_restore, memset0, hcop ▸ hl]

/-- Witness for the amended C1 at the concrete configuration: the first
iteration of `stateC1` has balance ratio above 1 and is UNSTARTED, and the
geometry of `startC1` matches `thrC1`. -/
theorem C1_witness :
    1 < iterB ratSqrt stateC1 ∧ stateC1.started = false ∧
    (((tnv_iteration ratSqrt stateC1).ctx.thr =
        ((iterCompute ratSqrt stateC1).1).map
          (tnv_restore { stateC1.ctx with sigma := stateC1.sigma, tau := stateC1.tau,
                                          theta := stateC1.theta,
                                          thr := (iterCompute ratSqrt stateC1).1 }) ∧
      (tnv_iteration ratSqrt stateC1).restoreCount = stateC1.restoreCount + 1) ∧
    (0 < ctxC1.dimX * thrC1.stepY * ctxC1.padZ →
      ((tnv_restore ctxC1 startC1).qx 0 = (tnv_start ctxC1 thrC1).qx 0 ∧
       (tnv_restore ctxC1 startC1).qy 0 = (tnv_start ctxC1 thrC1).qy 0 ∧
       (tnv_restore ctxC1 startC1).gradx 0 = (tnv_start ctxC1 thrC1).gradx 0 ∧
       (tnv_restore ctxC1 startC1).grady 0 = (tnv_start ctxC1 thrC1).grady 0)) ∧
    (0 < ctxC1.dimX * thrC1.copY * ctxC1.padZ →
      ((tnv_restore ctxC1 startC1).div 0 = (tnv_start ctxC1 thrC1).div 0 ∧
       (tnv_restore ctxC1 startC1).u 0 = 0))) :=
  ⟨by with_unfolding_all decide, rfl,
   C1_restore_rollback ratSqrt stateC1 ctxC1 thrC1 startC1 0
     (by with_unfolding_all decide) rfl rfl rfl⟩

/-- Claim C1 counterexample: on the concrete 2×2×1 input (warm start equal to
the noisy input, value 2 at column 1), the very first iteration's balance
ratio is above 1 and `tnv_restore` is dispatched, but afterwards the
partition's `u` buffer does not equal its state immediately after ingest:
cell 1 held 2 right after ingest and 0 after the rollback (restore zeroes `u`
instead of re-copying the warm-start band). -/
theorem C1_counterexample :
    1 < iterB ratSqrt stateC1 ∧
    (tnv_iteration ratSqrt stateC1).restoreCount = stateC1.restoreCount + 1 ∧
    startC1.u 1 = 2 ∧
    ((tnv_iteration ratSqrt stateC1).ctx.thr.getD 0 dummyThread).u 1 = 0 ∧
    ((tnv_iteration ratSqrt stateC1).ctx.thr.getD 0 dummyThread).u 1 ≠ startC1.u 1 := by
  refine ⟨?_, ?_, ?_, ?_, ?_⟩ <;> with_unfolding_all decide

end TNV
